import Mathlib

/-!
Verification of the rentfair CMHC rental-data pipeline.

This file gives a shallow embedding of the data-ingestion, normalization,
recency-selection, lookup/averaging and cache logic of the repository
(principally the newer variant of `src/lib/cmhc.ts`, together with
`src/lib/fetch-static-data.ts` and the API routes), and proves or refutes
the frozen claims about it.

Modelling conventions:
- JS strings are Lean `String`s, but all operations are implemented over
  `List Char` by structural recursion so that concrete evaluations reduce.
- JS numbers are modelled as exact `Int`/`Nat`/`Rat` values; the code under
  study only adds, divides and compares magnitudes far below 2^53, where
  IEEE doubles are exact for the integer inputs involved, and claim-relevant
  divisions are modelled in `Rat`.
- `parseFloat` / `parseInt` are modelled faithfully as leading-prefix
  parsers returning `Option Rat` / `Int`.
- Records are Lean structures; JS `undefined` for an optional field is
  `Option.none`.
-/

/-! ## Basic string machinery (models of the JS string operations used) -/

/-- Model of lower-casing a character as done by `String.prototype.toLowerCase`
on the ASCII range (the only range exercised by the data and queries). -/
def lowerChar (c : Char) : Char :=
  if c.toNat ≥ 65 && c.toNat ≤ 90 then Char.ofNat (c.toNat + 32) else c

/-- Model of `s.toLowerCase()`. -/
def toLowerStr (s : String) : String := ⟨s.data.map lowerChar⟩

/-- `leadMatch needle hay` is true when `needle` is an initial segment of `hay`. -/
def leadMatch : List Char → List Char → Bool
  | [], _ => true
  | _ :: _, [] => false
  | a :: as, b :: bs => a == b && leadMatch as bs

/-- `hasSub hay needle` is true when `needle` occurs contiguously in `hay`;
model of `String.prototype.includes`. -/
def hasSub : List Char → List Char → Bool
  | [], needle => needle.isEmpty
  | c :: t, needle => leadMatch needle (c :: t) || hasSub t needle

/-- Model of `hay.includes(needle)`. -/
def strIncludes (hay needle : String) : Bool := hasSub hay.data needle.data

/-- Model of `s.endsWith(suffix)`. -/
def strEndsWith (s suffix : String) : Bool :=
  leadMatch suffix.data.reverse s.data.reverse

/-- Model of `s.split(',')[0]`: the part of `s` before the first comma
(the whole string when there is no comma). -/
def firstCommaPart (s : String) : String := ⟨s.data.takeWhile (· ≠ ',')⟩

/-- Whitespace class used by JS `trim` and `\s` (restricted to the ASCII
whitespace actually occurring in the data). -/
def jsIsSpace (c : Char) : Bool :=
  c == ' ' || c == '\t' || c == '\n' || c == '\r' || c == '\x0b' || c == '\x0c'

/-- Model of `s.trim()`. -/
def strTrim (s : String) : String :=
  ⟨((s.data.dropWhile jsIsSpace).reverse.dropWhile jsIsSpace).reverse⟩

/-- Numeric value of a list of decimal digit characters. -/
def digitsToNat (cs : List Char) : Nat := cs.foldl (fun n c => n * 10 + (c.toNat - 48)) 0

/-- First maximal run of decimal digits in a character list; model of the
capture of the regex `(\d+)` under `String.prototype.match`. -/
def firstDigitRun : List Char → Option (List Char)
  | [] => none
  | c :: cs => if c.isDigit then some (c :: cs.takeWhile Char.isDigit) else firstDigitRun cs

/-! ## `normalizeBedrooms` (newer variant of `src/lib/cmhc.ts`) -/

/-- Model of `normalizeBedrooms`: exact canonical phrases first, then the
substring patterns, then first-digit-run extraction collapsing numbers `≥ 3`
to `"3+"`, else the original string; empty input maps to empty output. -/
def normalizeBedrooms (bedroom : String) : String :=
  if bedroom == "" then ""
  else
    let lower := toLowerStr bedroom
    if lower == "bachelor units" then "0"
    else if lower == "one bedroom units" then "1"
    else if lower == "two bedroom units" then "2"
    else if lower == "three bedroom units" then "3+"
    else if strIncludes lower "bachelor" || strIncludes lower "studio" then "0"
    else if strIncludes lower "one" || strIncludes lower "1 bedroom" then "1"
    else if strIncludes lower "two" || strIncludes lower "2 bedroom" then "2"
    else if strIncludes lower "three" || strIncludes lower "3 bedroom" ||
            strIncludes lower "3+" || strIncludes lower "three or more" then "3+"
    else
      match firstDigitRun bedroom.data with
      | some run => if digitsToNat run ≥ 3 then "3+" else ⟨run⟩
      | none => bedroom

/-! ## JS number parsing (`parseFloat`, `parseInt`, `Math.round`) -/

/-- Exponent digits after a sign in a JS float literal; `0` when no digit
follows (the exponent is then not consumed by `parseFloat`). -/
def expTail : List Char → Int
  | '-' :: t =>
    if (t.takeWhile Char.isDigit).isEmpty then 0
    else -(digitsToNat (t.takeWhile Char.isDigit) : Int)
  | '+' :: t =>
    if (t.takeWhile Char.isDigit).isEmpty then 0
    else (digitsToNat (t.takeWhile Char.isDigit) : Int)
  | t =>
    if (t.takeWhile Char.isDigit).isEmpty then 0
    else (digitsToNat (t.takeWhile Char.isDigit) : Int)

/-- Exponent part of a JS float literal (`e`/`E` then optional sign and digits). -/
def expOf : List Char → Int
  | 'e' :: t => expTail t
  | 'E' :: t => expTail t
  | _ => 0

/-- Syntactic decomposition of the longest leading float literal of a string:
sign, integer digits, fraction digits and exponent; `none` when no digit is
found (`parseFloat` returns `NaN` there). -/
def parseParts (cs0 : List Char) : Option (Bool × List Char × List Char × Int) :=
  let cs := cs0.dropWhile jsIsSpace
  let signRest : Bool × List Char :=
    match cs with
    | '-' :: t => (true, t)
    | '+' :: t => (false, t)
    | t => (false, t)
  let cs1 := signRest.2
  let ip := cs1.takeWhile Char.isDigit
  let cs2 := cs1.dropWhile Char.isDigit
  let fpRest : List Char × List Char :=
    match cs2 with
    | '.' :: t => (t.takeWhile Char.isDigit, t.dropWhile Char.isDigit)
    | t => ([], t)
  if ip.isEmpty && fpRest.1.isEmpty then none
  else some (signRest.1, ip, fpRest.1, expOf fpRest.2)

/-- Numeric value of a decomposed float literal, as an exact rational. -/
def ratOfParts : Bool × List Char × List Char × Int → ℚ
  | (neg, ip, fp, e) =>
    let m : ℚ := (digitsToNat ip : ℚ) + (digitsToNat fp : ℚ) / (10 : ℚ) ^ fp.length
    (if neg then -m else m) * (10 : ℚ) ^ e

/-- Model of `parseFloat(s)`: `none` models `NaN`. -/
def jsParseFloat (s : String) : Option ℚ := (parseParts s.data).map ratOfParts

/-- Model of `parseInt(s) || 0`: leading optional-sign digit run, with `NaN`
(and `0` itself) collapsing to `0` as the JS `||` default does. -/
def jsParseIntOr0 (s : String) : Int :=
  let cs := s.data.dropWhile jsIsSpace
  match cs with
  | '-' :: t =>
    if (t.takeWhile Char.isDigit).isEmpty then 0
    else -(digitsToNat (t.takeWhile Char.isDigit) : Int)
  | '+' :: t => (digitsToNat (t.takeWhile Char.isDigit) : Int)
  | t => (digitsToNat (t.takeWhile Char.isDigit) : Int)

/-- Model of `Math.round` (half-up, i.e. toward positive infinity on ties). -/
def jsRound (q : ℚ) : ℤ := ⌊q + 1/2⌋

/-! ## Record shapes -/

/-- Processed rental record, as produced by the newer `fetchRentalData`
variant of `src/lib/cmhc.ts` (fields `GEO`, `Bedrooms`, `VALUE`, `RefDate`,
`DataAge`, `Year`) and, for the static-data variant, `Category`.  JS
`undefined` is `none`.  The JS record also spreads all raw CSV columns into
the object; the pipeline model below applies that spread to the string
fields, and records constructed directly in theorems stand for records
whose raw columns do not collide with these field names. -/
structure RentalRecord where
  GEO : String := ""
  Bedrooms : String := ""
  VALUE : String := ""
  RefDate : String := ""
  DataAge : Option Int := none
  Year : Option Nat := none
  Category : String := ""
deriving DecidableEq

/-- Result shape of the lookup: `value` is `null` (`none`) or the average,
`dataAge` is the optional age in months. -/
structure AvgResult where
  value : Option ℚ := none
  dataAge : Option Int := none
deriving DecidableEq

/-! ## `processRecordsForAverage` (`src/lib/cmhc.ts`) -/

/-- Model of `val.replace(/[$,]/g, '')`. -/
def stripDollarComma (s : String) : String :=
  ⟨s.data.filter (fun c => !(c == '$' || c == ','))⟩

/-- Value parsing as the source does it: strip `$` and `,`, then `parseFloat`. -/
def parseValue (v : String) : Option ℚ := jsParseFloat (stripDollarComma v)

/-- Spec-words value parser, stated for comparison with the source's
`parseValue`: the specification describes parsing after stripping all
characters other than decimal digits and the decimal point. -/
def specValueParse (v : String) : Option ℚ :=
  jsParseFloat ⟨v.data.filter (fun c => c.isDigit || c == '.')⟩

/-- The parsable values of a record list (`.map(parseFloat).filter(!isNaN)`). -/
def validValuesOf (records : List RentalRecord) : List ℚ :=
  records.filterMap (fun r => parseValue r.VALUE)

/-- The data ages present in a record list. -/
def agesOf (records : List RentalRecord) : List Int :=
  records.filterMap (fun r => r.DataAge)

/-- Model of `processRecordsForAverage`: with more than one record, average
the parsable values (null when none parse) and round-average the present
data ages; with one record, parse its value and pass its age through.  The
empty case never arises in the source (both call sites guard nonemptiness). -/
def processRecordsForAverage (records : List RentalRecord) : AvgResult :=
  if records.length > 1 then
    let validValues := validValuesOf records
    if validValues.length = 0 then ⟨none, none⟩
    else
      let avgValue := validValues.foldl (· + ·) 0 / (validValues.length : ℚ)
      let agesWithValues := agesOf records
      let avgAge :=
        if agesWithValues.length > 0 then
          some (jsRound ((agesWithValues.foldl (· + ·) 0 : ℚ) / (agesWithValues.length : ℚ)))
        else none
      ⟨some avgValue, avgAge⟩
  else
    match records with
    | [] => ⟨none, none⟩
    | r :: _ =>
      match parseValue r.VALUE with
      | none => ⟨none, r.DataAge⟩
      | some v => ⟨some v, r.DataAge⟩

/-- Arithmetic mean of a value list, `none` when empty (spec-words helper). -/
def meanOf (vs : List ℚ) : Option ℚ :=
  if vs = [] then none else some (vs.foldl (· + ·) 0 / (vs.length : ℚ))

/-! ## Recency selection (`fetchRentalData` tail, `src/lib/cmhc.ts`) -/

/-- Deduplication keeping first occurrences, generalized over already-seen
elements; models iteration order of a JS `Set`. -/
def dedupGo (seen : List Nat) : List Nat → List Nat
  | [] => []
  | x :: xs => if x ∈ seen then dedupGo seen xs else x :: dedupGo (x :: seen) xs

/-- Model of `Array.from(new Set(l))`: distinct elements in first-occurrence
order. -/
def firstDedup (l : List Nat) : List Nat := dedupGo [] l

/-- Insertion into a descending-sorted list. -/
def insertDesc (x : Nat) : List Nat → List Nat
  | [] => [x]
  | y :: ys => if y ≤ x then x :: y :: ys else y :: insertDesc x ys

/-- Descending sort; model of `.sort((a, b) => b - a)` on distinct numbers. -/
def sortDesc (l : List Nat) : List Nat := l.foldr insertDesc []

/-- The reference years present in a record list. -/
def yearsOf (records : List RentalRecord) : List Nat :=
  records.filterMap (fun r => r.Year)

/-- Model of the recency-selection tail of `fetchRentalData`: sort the
distinct years descending, take the head as the latest year (0 when no
years), filter to that year when it exceeds 2008, and fall back to the full
set when the year-filtered set has fewer than 10 records while the full set
has at least 10. -/
def selectRecent (records : List RentalRecord) : List RentalRecord :=
  let years := yearsOf records
  let uniqueYears := sortDesc (firstDedup years)
  let latestYear := uniqueYears.headD 0
  let recentRecords :=
    if latestYear > 2008 then records.filter (fun r => r.Year == some latestYear)
    else records
  if recentRecords.length < 10 ∧ records.length ≥ 10 then records else recentRecords

/-- Spec-words recency selector, stated for comparison with the source's
`selectRecent`: the specification says to take the maximum year present. -/
def specRecencySelect (records : List RentalRecord) : List RentalRecord :=
  let maxYear := (yearsOf records).foldr max 0
  let recent :=
    if maxYear > 2008 then records.filter (fun r => r.Year == some maxYear)
    else records
  if recent.length < 10 ∧ records.length ≥ 10 then records else recent

/-! ## The lookup engine `getAverage` (`src/lib/cmhc.ts`) -/

/-- JS regex word character (`\w` is `[A-Za-z0-9_]`). -/
def isWordChar (c : Char) : Bool := c.isAlpha || c.isDigit || c == '_'

/-- A `\b` boundary holds before the scan position given the previous
character (if any). -/
def boundaryOk (prev : Option Char) : Bool :=
  match prev with
  | none => true
  | some c => !(isWordChar c)

/-- Length of a match of `/\bst\b|\bst\./i` at the head of the list, given
the previous character.  The second alternative `\bst\.` can never win,
because `.` is a non-word character and the first alternative `\bst\b`
already matches there, so a match always has length 2. -/
def stMatchLen (prev : Option Char) : List Char → Option Nat
  | c1 :: c2 :: rest =>
    if boundaryOk prev && lowerChar c1 == 's' && lowerChar c2 == 't' then
      match rest with
      | [] => some 2
      | c3 :: _ => if !(isWordChar c3) then some 2 else none
    else none
  | _ => none

/-- Length of a match of `/\bsaint\b/i` at the head of the list. -/
def saintMatchLen (prev : Option Char) : List Char → Option Nat
  | c1 :: c2 :: c3 :: c4 :: c5 :: rest =>
    if boundaryOk prev && lowerChar c1 == 's' && lowerChar c2 == 'a' &&
        lowerChar c3 == 'i' && lowerChar c4 == 'n' && lowerChar c5 == 't' then
      match rest with
      | [] => some 5
      | c6 :: _ => if !(isWordChar c6) then some 5 else none
    else none
  | _ => none

/-- Whether a matcher fires anywhere in the list (model of `String.match`
used as a test). -/
def scanHas (m : Option Char → List Char → Option Nat) :
    Option Char → List Char → Bool
  | _, [] => false
  | prev, c :: cs => (m prev (c :: cs)).isSome || scanHas m (some c) cs

/-- Replace the first match of a matcher by `repl` (model of non-global
`String.replace`). -/
def scanReplace (m : Option Char → List Char → Option Nat) (repl : List Char) :
    Option Char → List Char → List Char
  | _, [] => []
  | prev, c :: cs =>
    match m prev (c :: cs) with
    | some n => repl ++ (c :: cs).drop n
    | none => c :: scanReplace m repl (some c) cs

/-- Model of `city.replace(/\s+/g, '-')`: collapse each whitespace run to a
single hyphen.  The flag records whether the previous character was
whitespace. -/
def collapseWs (inRun : Bool) : List Char → List Char
  | [] => []
  | c :: cs =>
    if jsIsSpace c then
      if inRun then collapseWs true cs else '-' :: collapseWs true cs
    else c :: collapseWs false cs

/-- Candidate spelling variants of a city name (approach 3 of `getAverage`):
toggle St./Saint, toggle hyphens and spaces, and the Ottawa-Gatineau special
case. -/
def cityVariations (city : String) : List String :=
  let stVars : List String :=
    if scanHas stMatchLen none city.data then
      [⟨scanReplace stMatchLen ("Saint").data none city.data⟩]
    else if scanHas saintMatchLen none city.data then
      [⟨scanReplace saintMatchLen ("St.").data none city.data⟩]
    else []
  let hyphenVars : List String :=
    if strIncludes city "-" then
      [⟨city.data.map (fun c => if c == '-' then ' ' else c)⟩]
    else if strIncludes city " " then [⟨collapseWs false city.data⟩]
    else []
  let ottawaVars : List String :=
    if toLowerStr city == "ottawa-gatineau" then
      ["Ottawa", "Gatineau", "Ottawa-Gatineau, Ontario part"]
    else []
  stVars ++ hyphenVars ++ ottawaVars

/-- The fixed satellite-city → metro-area alias table (approach 4 of
`getAverage`), an exact case-sensitive key lookup. -/
def metroAreaMappings (city : String) : List String :=
  if city == "Toronto" || city == "Mississauga" || city == "Brampton" ||
      city == "Vaughan" || city == "Markham" || city == "Richmond Hill" ||
      city == "Oakville" then
    ["Toronto", "Toronto CMA", "Greater Toronto"]
  else if city == "Burlington" then ["Hamilton", "Hamilton CMA"]
  else if city == "Ottawa" then ["Ottawa-Gatineau", "Ottawa-Gatineau, Ontario part"]
  else if city == "Gatineau" then ["Ottawa-Gatineau", "Ottawa-Gatineau, Quebec part"]
  else []

/-- Approach 1 of `getAverage`: exact case-insensitive match on the part of
the geography before the first comma, plus exact bedroom match. -/
def approach1 (data : List RentalRecord) (city beds : String) : List RentalRecord :=
  data.filter fun item =>
    toLowerStr (strTrim (firstCommaPart item.GEO)) == toLowerStr city &&
    item.Bedrooms == beds

/-- The filter shared by approaches 2, 3 and 4: geography contains the name
case-insensitively, plus exact bedroom match. -/
def cityBedsMatches (data : List RentalRecord) (beds name : String) : List RentalRecord :=
  data.filter fun item =>
    strIncludes (toLowerStr item.GEO) (toLowerStr name) && item.Bedrooms == beds

/-- Approach 2 of `getAverage`: partial geography match. -/
def approach2 (data : List RentalRecord) (city beds : String) : List RentalRecord :=
  cityBedsMatches data beds city

/-- First candidate name whose partial match set is nonempty, in order. -/
def firstNonemptyMatch (data : List RentalRecord) (beds : String) :
    List String → List RentalRecord
  | [] => []
  | v :: vs =>
    match cityBedsMatches data beds v with
    | [] => firstNonemptyMatch data beds vs
    | r :: rs => r :: rs

/-- Approach 3 of `getAverage`: spelling variants. -/
def approach3 (data : List RentalRecord) (city beds : String) : List RentalRecord :=
  firstNonemptyMatch data beds (cityVariations city)

/-- Approach 4 of `getAverage`: metro-area aliases. -/
def approach4 (data : List RentalRecord) (city beds : String) : List RentalRecord :=
  firstNonemptyMatch data beds (metroAreaMappings city)

/-- Plain city-name matches ignoring bedrooms (start of approach 5). -/
def cityOnlyMatches (data : List RentalRecord) (city : String) : List RentalRecord :=
  data.filter fun item => strIncludes (toLowerStr item.GEO) (toLowerStr city)

/-- One step of grouping by bedroom bucket: append the record to its bucket,
creating the bucket at the end on first sight (JS object property creation
order). -/
def addToGroups (gs : List (String × List RentalRecord)) (r : RentalRecord) :
    List (String × List RentalRecord) :=
  if gs.any (fun g => g.1 == r.Bedrooms) then
    gs.map (fun g => if g.1 == r.Bedrooms then (g.1, g.2 ++ [r]) else g)
  else gs ++ [(r.Bedrooms, [r])]

/-- Model of building `bedroomGroups` as a JS object keyed by bucket. -/
def groupByBedrooms (recs : List RentalRecord) : List (String × List RentalRecord) :=
  recs.foldl addToGroups []

/-- The numeric scale of a bedroom bucket: the fixed `bedroomValue` table
(`0`,`1`,`2`,`3+`, empty string) with `parseInt(x) || 0` as the default. -/
def bedroomNumeric (b : String) : Int :=
  if b == "0" then 0
  else if b == "1" then 1
  else if b == "2" then 2
  else if b == "3+" then 3
  else if b == "" then 0
  else jsParseIntOr0 b

/-- Numeric distance of a bucket from the target (`Math.abs` of the
difference of the scale values). -/
def bedDist (t : Int) (b : String) : Nat := (bedroomNumeric b - t).natAbs

/-- Whether a string is an ECMAScript array-index key (canonical decimal
numeral below 2^32 - 1); such object keys enumerate before all others, in
ascending numeric order. -/
def isArrayIndexKey (s : String) : Bool :=
  !s.data.isEmpty && s.data.all Char.isDigit &&
  (s == "0" || !(s.data.headD ' ' == '0')) && digitsToNat s.data < 4294967295

/-- Insertion into a list sorted ascending by numeric value. -/
def insertAscIdx (x : String) : List String → List String
  | [] => [x]
  | y :: ys =>
    if digitsToNat x.data ≤ digitsToNat y.data then x :: y :: ys
    else y :: insertAscIdx x ys

/-- Ascending numeric sort of array-index keys. -/
def sortAscIdx (l : List String) : List String := l.foldr insertAscIdx []

/-- Model of `Object.keys` enumeration order on the bucket keys: array-index
keys in ascending numeric order first, then the remaining keys in property
creation order. -/
def jsKeysOrder (keys : List String) : List String :=
  sortAscIdx (keys.filter isArrayIndexKey) ++ keys.filter (fun k => !isArrayIndexKey k)

/-- The argmin loop of approach 5: starting from `closestBedroom = ''` and
`minDifference = Number.MAX_VALUE` (modelled as `none`), keep the first key
that strictly improves the distance. -/
def pickClosestGo (t : Int) (best : String) (bestD : Option Nat) :
    List String → String
  | [] => best
  | k :: ks =>
    match bestD with
    | none => pickClosestGo t k (some (bedDist t k)) ks
    | some m =>
      if bedDist t k < m then pickClosestGo t k (some (bedDist t k)) ks
      else pickClosestGo t best (some m) ks

/-- The closest bedroom bucket among the enumerated keys. -/
def pickClosest (t : Int) (keys : List String) : String :=
  pickClosestGo t "" none keys

/-- Approach 5 of `getAverage`: group the plain city matches by bucket and
take the group of the closest bucket; empty when there is no city match or
the selected bucket label is the empty string (the JS `if (closestBedroom)`
guard). -/
def closestGroup (data : List RentalRecord) (city beds : String) : List RentalRecord :=
  let cityOnly := cityOnlyMatches data city
  if cityOnly.isEmpty then []
  else
    let groups := groupByBedrooms cityOnly
    let ordered := jsKeysOrder (groups.map Prod.fst)
    let closest := pickClosest (bedroomNumeric beds) ordered
    if closest == "" then [] else (groups.lookup closest).getD []

/-- The matched record set of `getAverage`: the five strategies in order,
stopping at the first nonempty result. -/
def cascadeMatches (data : List RentalRecord) (city beds : String) : List RentalRecord :=
  let r1 := approach1 data city beds
  if !r1.isEmpty then r1 else
  let r2 := approach2 data city beds
  if !r2.isEmpty then r2 else
  let r3 := approach3 data city beds
  if !r3.isEmpty then r3 else
  let r4 := approach4 data city beds
  if !r4.isEmpty then r4 else
  closestGroup data city beds

/-- Model of `getAverage(city, beds)` over a given dataset: null on empty
data or when every strategy misses, otherwise the aggregated average of the
matched set. -/
def getAverage (data : List RentalRecord) (city beds : String) : AvgResult :=
  if data.isEmpty then ⟨none, none⟩
  else
    match cascadeMatches data city beds with
    | [] => ⟨none, none⟩
    | r :: rs => processRecordsForAverage (r :: rs)

/-- Modelled from the spec: the category-aware `getAverage(city, beds,
category)` is imported from `@/lib/cmhc` by the compare route
(`src/unnamed/part_004`) and the page, but the `cmhc.ts` variant defining it
is not under `src/`; spec section 4.6 specifies the same strategy cascade
with the additional constraint that the record's category equal the filter,
and one retry of the entire procedure without the filter when it yields
zero matches. -/
def getAverageWithCategory (data : List RentalRecord) (city beds : String)
    (category : Option String) : AvgResult :=
  match category with
  | none => getAverage data city beds
  | some c =>
    match cascadeMatches (data.filter (fun r => r.Category == c)) city beds with
    | [] => getAverage data city beds
    | r :: rs => processRecordsForAverage (r :: rs)

/-! ## `mapStructureTypeToCategory` -/

/-- Modelled from the spec: `mapStructureTypeToCategory` is imported from
`@/lib/cmhc` by `src/lib/fetch-static-data.ts` and the data route, but the
`cmhc.ts` variant defining it is not under `src/`; spec section 4.2
specifies a fixed 4-entry exact-string table from structure-type phrases of
the source dataset to the four housing categories.  The concrete phrases
below are the four structure-type labels of the upstream table and the
category names are the spec's four housing categories. -/
def structureTypeTable : List (String × String) :=
  [("Row and apartment structures of three units and over", "Multi-Plex"),
   ("Row structures of three units and over", "Townhouse"),
   ("Apartment structures of three units and over", "Low-Rise"),
   ("Apartment structures of six units and over", "Highrise")]

/-- Modelled from the spec: exact-string lookup in the fixed table, empty
string on no match (no fuzzy matching). -/
def mapStructureTypeToCategory (label : String) : String :=
  match structureTypeTable.find? (fun e => e.1 == label) with
  | some e => e.2
  | none => ""

/-- Dataset for the C5 tie-break counterexample: the "2" bucket is
encountered first, the "0" bucket second; both are at distance 1 from the
requested bedroom count 1. -/
def tieBreakData : List RentalRecord :=
  [⟨"Hamilton, Ontario", "2", "$2,000", "", none, none, ""⟩,
   ⟨"Hamilton, Ontario", "0", "$1,000", "", none, none, ""⟩]

/-- Dataset of the claim's own closest-bedroom example. -/
def hamClaimData : List RentalRecord :=
  [⟨"Hamilton, Ontario", "2", "$1,800", "", none, none, ""⟩,
   ⟨"Hamilton, Ontario", "3+", "$2,200", "", none, none, ""⟩]

/-! ## The record-processing pipeline (`fetchRentalData`, `src/lib/cmhc.ts`) -/

/-- A raw CSV row as a JS object: association list of column name to value,
in the object's own-property enumeration order. -/
abbrev RawRecord := List (String × String)

/-- Model of `record[k]` with JS truthiness in mind: the value of column `k`,
or the empty string when the column is absent (`undefined` is falsy exactly
as the empty string is). -/
def rawGet (row : RawRecord) (k : String) : String := (row.lookup k).getD ""

/-- Column-name heuristic for the geography role. -/
def geoKeyMatch (lowerKey : String) : Bool :=
  strIncludes lowerKey "geo" || strIncludes lowerKey "location" ||
  strIncludes lowerKey "city" || strIncludes lowerKey "geography"

/-- Column-name heuristic for the bedrooms role. -/
def bedroomsKeyMatch (lowerKey : String) : Bool :=
  strIncludes lowerKey "bedroom" || strIncludes lowerKey "room" ||
  strIncludes lowerKey "type of unit" || strIncludes lowerKey "unit type" ||
  strIncludes lowerKey "apartment type" || strIncludes lowerKey "dwelling type"

/-- Column-name heuristic for the value role. -/
def valueKeyMatch (lowerKey : String) : Bool :=
  strIncludes lowerKey "value" || strIncludes lowerKey "price" ||
  strIncludes lowerKey "rent" || strIncludes lowerKey "amount" ||
  strIncludes lowerKey "cost"

/-- Column-name heuristic for the reference-date role. -/
def refDateKeyMatch (lowerKey : String) : Bool :=
  strIncludes lowerKey "ref" || strIncludes lowerKey "date" ||
  strIncludes lowerKey "period" || strIncludes lowerKey "year" ||
  strIncludes lowerKey "time"

/-- The discovered column names for the four roles (empty when undetected). -/
structure FieldMap where
  GEO : String := ""
  Bedrooms : String := ""
  VALUE : String := ""
  RefDate : String := ""
deriving DecidableEq

/-- Model of `identifyFieldNames` (newer variant, with the reference-date
role): scan the sample row's column names in order, first match wins per
role. -/
def identifyFieldNames (record : RawRecord) : FieldMap :=
  record.foldl
    (fun fm kv =>
      let lowerKey := toLowerStr kv.1
      let fm1 := if fm.GEO == "" && geoKeyMatch lowerKey then
        { fm with GEO := kv.1 } else fm
      let fm2 := if fm1.Bedrooms == "" && bedroomsKeyMatch lowerKey then
        { fm1 with Bedrooms := kv.1 } else fm1
      let fm3 := if fm2.VALUE == "" && valueKeyMatch lowerKey then
        { fm2 with VALUE := kv.1 } else fm2
      if fm3.RefDate == "" && refDateKeyMatch lowerKey then
        { fm3 with RefDate := kv.1 } else fm3)
    ⟨"", "", "", ""⟩

/-- Model of the bedroom-field fallback of `fetchRentalData`: when no
bedroom column was identified, try the three known column names on the
sample row. -/
def bedroomFieldFallback (sample : RawRecord) (fm : FieldMap) : FieldMap :=
  if fm.Bedrooms == "" then
    if !(rawGet sample "Type of unit" == "") then
      { fm with Bedrooms := "Type of unit" }
    else if !(rawGet sample "Dwelling type" == "") then
      { fm with Bedrooms := "Dwelling type" }
    else if !(rawGet sample "Unit type" == "") then
      { fm with Bedrooms := "Unit type" }
    else fm
  else fm

/-- The field map used by `fetchRentalData`: identified from the first row,
with the bedroom fallback. -/
def computeFieldMap (rows : List RawRecord) : FieldMap :=
  match rows with
  | [] => ⟨"", "", "", ""⟩
  | sample :: _ => bedroomFieldFallback sample (identifyFieldNames sample)

/-- Bedroom text of a row: the mapped column when present and nonempty, else
the first column whose name contains bedroom/unit or whose value contains
bedroom/bachelor. -/
def bedroomInfoOf (fm : FieldMap) (row : RawRecord) : String :=
  if !(fm.Bedrooms == "") && !(rawGet row fm.Bedrooms == "") then
    rawGet row fm.Bedrooms
  else
    match row.find? (fun kv =>
      strIncludes (toLowerStr kv.1) "bedroom" || strIncludes (toLowerStr kv.1) "unit" ||
      strIncludes (toLowerStr kv.2) "bedroom" || strIncludes (toLowerStr kv.2) "bachelor") with
    | some kv => kv.2
    | none => ""

/-- Reference-date text of a row: the mapped column when present and
nonempty, else the first column whose name contains date/period/year/ref or
whose value contains "20". -/
def refDateOf (fm : FieldMap) (row : RawRecord) : String :=
  if !(fm.RefDate == "") && !(rawGet row fm.RefDate == "") then
    rawGet row fm.RefDate
  else
    match row.find? (fun kv =>
      strIncludes (toLowerStr kv.1) "date" || strIncludes (toLowerStr kv.1) "period" ||
      strIncludes (toLowerStr kv.1) "year" || strIncludes (toLowerStr kv.1) "ref" ||
      strIncludes (toLowerStr kv.2) "20") with
    | some kv => kv.2
    | none => ""

/-- The Ontario-location heuristic of the pipeline filters. -/
def ontarioHeuristic (geo : String) : Bool :=
  strEndsWith geo ", Ontario" || strIncludes geo "Ontario" ||
  strIncludes geo "ON," || strIncludes geo ", ON"

/-- One emitted record of the map step.  The JS object literal spreads all
raw columns last, so a raw column literally named `GEO`, `Bedrooms`, `VALUE`
or `RefDate` overwrites the computed field; that overwrite is modelled here.
The date parsing (`new Date`, current clock and host timezone) is the
oracle `di`, mapping the resolved reference-date text to the optional year
and data age; raw columns literally named `Year` or `DataAge` do not occur
in the upstream dataset and their overwrite (which in JS would store a
string in a number field) is outside this model. -/
def emitRecord (di : String → Option Nat × Option Int) (fm : FieldMap)
    (row : RawRecord) : RentalRecord :=
  let refDate := refDateOf fm row
  let yearAge := di refDate
  { GEO := (row.lookup "GEO").getD (rawGet row fm.GEO),
    Bedrooms := (row.lookup "Bedrooms").getD (normalizeBedrooms (bedroomInfoOf fm row)),
    VALUE := (row.lookup "VALUE").getD (rawGet row fm.VALUE),
    RefDate := (row.lookup "RefDate").getD refDate,
    DataAge := yearAge.2,
    Year := yearAge.1,
    Category := "" }

/-- Model of the processing chain of `fetchRentalData`: drop rows missing
geography or value, keep Ontario rows, map to records, drop records with
empty bedrooms or value. -/
def processRows (di : String → Option Nat × Option Int) (fm : FieldMap)
    (rows : List RawRecord) : List RentalRecord :=
  let withGeoValue := rows.filter (fun record =>
    !(rawGet record fm.GEO == "") && !(rawGet record fm.VALUE == ""))
  let ontarioRows := withGeoValue.filter (fun record =>
    !(rawGet record fm.GEO == "") && ontarioHeuristic (rawGet record fm.GEO))
  let mapped := ontarioRows.map (emitRecord di fm)
  mapped.filter (fun record => !(record.Bedrooms == "") && !(record.VALUE == ""))

/-- Outcome of the API-proxy exchange as seen by `fetchRentalData`: each
error constructor stands for one failure stage (fetch threw, non-ok
response, `json()` threw, missing `data` field); `ok` carries the parsed
CSV rows. -/
inductive ApiResult where
  | networkError : ApiResult
  | httpError : ApiResult
  | badJson : ApiResult
  | noDataField : ApiResult
  | ok : List RawRecord → ApiResult

/-- Environment of one cache-miss invocation of `fetchRentalData`: the API
outcome and the date-parsing oracle. -/
structure FetchEnv where
  api : ApiResult
  dateInfo : String → Option Nat × Option Int

/-- Model of `fetchRentalData` (newer variant) on a cache miss: every
failure stage is caught and yields the empty list; on success the rows run
through field identification, the record pipeline and the recency
selection.  The enclosing try/catch of the source is the totality of this
function. -/
def fetchRentalData (env : FetchEnv) : List RentalRecord :=
  match env.api with
  | ApiResult.networkError => []
  | ApiResult.httpError => []
  | ApiResult.badJson => []
  | ApiResult.noDataField => []
  | ApiResult.ok rows =>
    if rows.isEmpty then []
    else selectRecent (processRows env.dateInfo (computeFieldMap rows) rows)

/-! ## Cache invalidation (modelled from the spec) -/

/-- Modelled from the spec: the rate-limit interval (spec section 4.5 gives
60 seconds as the fixed interval example). -/
def checkInterval : Int := 60

/-- Modelled from the spec: the process-wide cache state of the dataset
acquirer (records null until populated, plus the time of the last
invalidation-signal check). -/
structure CacheState where
  records : Option (List RentalRecord)
  lastInvalidationCheck : Int
deriving DecidableEq

/-- One acquisition call's environment: the signal marker's timestamp (none
when the marker is absent), the current time, and the dataset a (re)fetch
would produce. -/
structure AcquireEnv where
  signalTimestamp : Option Int
  now : Int
  fresh : List RentalRecord
deriving DecidableEq

/-- Modelled from the spec: the invalidation-checking acquirer.  The reader
of the `.cache-invalidated` marker is not under `src/` (only its writer
`clearCachedData` in the refresh scheduler is); spec section 4.5 specifies:
check the signal at most once per interval, clear the cache when a signal
timestamp newer than the last check is observed, then return the cache when
populated and otherwise fetch and cache fresh records. -/
def acquireDataset (st : CacheState) (env : AcquireEnv) :
    List RentalRecord × CacheState :=
  let st1 :=
    if env.now - st.lastInvalidationCheck ≥ checkInterval then
      let cleared :=
        match env.signalTimestamp with
        | some s => if s > st.lastInvalidationCheck then none else st.records
        | none => st.records
      CacheState.mk cleared env.now
    else st
  match st1.records with
  | some recs => (recs, st1)
  | none => (env.fresh, CacheState.mk (some env.fresh) st1.lastInvalidationCheck)

/-! ## Theorems -/

/-- Each member of a list is bounded by its folded maximum. -/
theorem le_foldrMax (a : Nat) (l : List Nat) (h : a ∈ l) : a ≤ l.foldr max 0 := by
  induction l with
  | nil => cases h
  | cons b l ih =>
    rcases List.mem_cons.mp h with rfl | hmem
    · exact Nat.le_max_left _ _
    · exact le_trans (ih hmem) (Nat.le_max_right _ _)

/-- The folded maximum is bounded by any upper bound of the members. -/
theorem foldrMax_le (l : List Nat) (m : Nat) (h : ∀ a ∈ l, a ≤ m) :
    l.foldr max 0 ≤ m := by
  induction l with
  | nil => exact Nat.zero_le m
  | cons b l ih =>
    exact Nat.max_le.mpr ⟨h b (List.mem_cons_self b l), ih fun a ha => h a (List.mem_cons_of_mem b ha)⟩

/-- Membership in the generalized first-occurrence dedup. -/
theorem mem_dedupGo (x : Nat) (seen l : List Nat) :
    x ∈ dedupGo seen l ↔ x ∈ l ∧ x ∉ seen := by
  induction l generalizing seen with
  | nil => simp [dedupGo]
  | cons b l ih =>
    by_cases hb : b ∈ seen
    · rw [dedupGo, if_pos hb, ih seen]
      constructor
      · rintro ⟨hx, hns⟩
        exact ⟨List.mem_cons_of_mem _ hx, hns⟩
      · rintro ⟨hx, hns⟩
        rcases List.mem_cons.mp hx with rfl | hx'
        · exact absurd hb hns
        · exact ⟨hx', hns⟩
    · rw [dedupGo, if_neg hb]
      constructor
      · intro hx
        rcases List.mem_cons.mp hx with rfl | hx'
        · exact ⟨List.mem_cons_self _ _, hb⟩
        · obtain ⟨h1, h2⟩ := (ih (b :: seen)).mp hx'
          exact ⟨List.mem_cons_of_mem _ h1, fun hs => h2 (List.mem_cons_of_mem _ hs)⟩
      · rintro ⟨hx, hns⟩
        rcases List.mem_cons.mp hx with rfl | hx'
        · exact List.mem_cons_self _ _
        · by_cases hxb : x = b
          · exact hxb ▸ List.mem_cons_self _ _
          · refine List.mem_cons_of_mem _ ((ih (b :: seen)).mpr ⟨hx', ?_⟩)
            intro hs
            rcases List.mem_cons.mp hs with h | h
            · exact hxb h
            · exact hns h

/-- First-occurrence dedup preserves membership. -/
theorem mem_firstDedup (x : Nat) (l : List Nat) : x ∈ firstDedup l ↔ x ∈ l := by
  simp [firstDedup, mem_dedupGo]

/-- Head of a descending insertion. -/
theorem insertDesc_headD (x : Nat) (l : List Nat) :
    (insertDesc x l).headD 0 = max x (l.headD 0) := by
  cases l with
  | nil => simp [insertDesc, Nat.max_zero]
  | cons y ys =>
    by_cases h : y ≤ x
    · rw [insertDesc, if_pos h]
      simp [Nat.max_eq_left h]
    · rw [insertDesc, if_neg h]
      simp [Nat.max_eq_right (Nat.le_of_lt (Nat.lt_of_not_le h))]

/-- Head of the descending sort is the folded maximum. -/
theorem sortDesc_headD (l : List Nat) : (sortDesc l).headD 0 = l.foldr max 0 := by
  induction l with
  | nil => rfl
  | cons a l ih =>
    show (insertDesc a (sortDesc l)).headD 0 = max a (l.foldr max 0)
    rw [insertDesc_headD, ih]

/-- Lists with the same members have the same folded maximum. -/
theorem foldrMax_congr (l1 l2 : List Nat) (h : ∀ x, x ∈ l1 ↔ x ∈ l2) :
    l1.foldr max 0 = l2.foldr max 0 :=
  Nat.le_antisymm
    (foldrMax_le _ _ fun a ha => le_foldrMax a l2 ((h a).mp ha))
    (foldrMax_le _ _ fun a ha => le_foldrMax a l1 ((h a).mpr ha))

/-- Evaluation helper: a value whose stripped form is a plain digit run
parses to that number. -/
theorem parseValue_eq_nat (v : String) (ip : List Char) (n : Nat)
    (h : parseParts (stripDollarComma v).data = some (false, ip, [], 0))
    (hd : digitsToNat ip = n) :
    parseValue v = some (n : ℚ) := by
  simp [parseValue, jsParseFloat, h, ratOfParts, hd, show digitsToNat [] = 0 from rfl]

/-- Evaluation helper: a value with no digits after stripping does not parse. -/
theorem parseValue_none (v : String)
    (h : parseParts (stripDollarComma v).data = none) : parseValue v = none := by
  simp [parseValue, jsParseFloat, h]

/-- Evaluation helper for the spec-words parser. -/
theorem specValueParse_eq_nat (v : String) (ip : List Char) (n : Nat)
    (h : parseParts (v.data.filter (fun c => c.isDigit || c == '.')) = some (false, ip, [], 0))
    (hd : digitsToNat ip = n) :
    specValueParse v = some (n : ℚ) := by
  simp [specValueParse, jsParseFloat, String.data, h, ratOfParts, hd,
    show digitsToNat [] = 0 from rfl]

/-- The two aggregation branches of `processRecordsForAverage` compute the
same value: the arithmetic mean of the parsable values, null when none. -/
theorem process_value_eq (records : List RentalRecord) (h : records ≠ []) :
    (processRecordsForAverage records).value = meanOf (validValuesOf records) := by
  match records, h with
  | [r], _ =>
    cases hp : parseValue r.VALUE <;>
      simp [processRecordsForAverage, validValuesOf, meanOf, hp]
  | r1 :: r2 :: rs, _ =>
    have hlen : (r1 :: r2 :: rs).length > 1 := by simp
    by_cases hv : validValuesOf (r1 :: r2 :: rs) = [] <;>
      simp [processRecordsForAverage, hlen, meanOf, hv, List.length_eq_zero]

/-- C4: `normalizeBedrooms` lower-cases its input and applies exact canonical
phrases, then substring patterns, then digit extraction collapsing numbers
`≥ 3` to `"3+"`, returning the input unchanged when nothing matches; each
listed valid bedroom label variant lands in exactly the set `0`, `1`, `2`,
`3+`, the empty string maps to itself, and `"penthouse"` is returned
unchanged. -/
theorem c4_normalizeBedrooms :
    normalizeBedrooms "" = "" ∧
    normalizeBedrooms "Bachelor units" = "0" ∧
    normalizeBedrooms "bachelor" = "0" ∧
    normalizeBedrooms "studio" = "0" ∧
    normalizeBedrooms "1 bedroom" = "1" ∧
    normalizeBedrooms "one bedroom units" = "1" ∧
    normalizeBedrooms "2" = "2" ∧
    normalizeBedrooms "three or more" = "3+" ∧
    normalizeBedrooms "5 bedroom" = "3+" ∧
    normalizeBedrooms "penthouse" = "penthouse" := by
  decide

/-- C1 counterexample: the source parses values by stripping only `$` and `,`
and then taking the longest leading float prefix, not by stripping all
non-numeric characters as the claim states.  On the records with values
`"$1,500"` and `"CA$1,700"` the source discards the second value and returns
average 1500, while the claim's described parse keeps both and predicts the
mean 1600. -/
theorem c1_claim_counterexample :
    (processRecordsForAverage
        [⟨"Toronto, Ontario", "1", "$1,500", "", none, none, ""⟩,
         ⟨"Toronto, Ontario", "1", "CA$1,700", "", none, none, ""⟩]).value = some 1500 ∧
    meanOf
        ([(⟨"Toronto, Ontario", "1", "$1,500", "", none, none, ""⟩ : RentalRecord),
          ⟨"Toronto, Ontario", "1", "CA$1,700", "", none, none, ""⟩].filterMap
          (fun r => specValueParse r.VALUE)) = some 1600 ∧
    (1500 : ℚ) ≠ 1600 := by
  have h1 : parseValue "$1,500" = some 1500 :=
    parseValue_eq_nat _ ['1', '5', '0', '0'] 1500 (by decide) (by decide)
  have h2 : parseValue "CA$1,700" = none := parseValue_none _ (by decide)
  have h3 : specValueParse "$1,500" = some 1500 :=
    specValueParse_eq_nat _ ['1', '5', '0', '0'] 1500 (by decide) (by decide)
  have h4 : specValueParse "CA$1,700" = some 1700 :=
    specValueParse_eq_nat _ ['1', '7', '0', '0'] 1700 (by decide) (by decide)
  have hvv : validValuesOf
      [⟨"Toronto, Ontario", "1", "$1,500", "", none, none, ""⟩,
       ⟨"Toronto, Ontario", "1", "CA$1,700", "", none, none, ""⟩] = [1500] := by
    simp [validValuesOf, h1, h2]
  have hsv : ([(⟨"Toronto, Ontario", "1", "$1,500", "", none, none, ""⟩ : RentalRecord),
       ⟨"Toronto, Ontario", "1", "CA$1,700", "", none, none, ""⟩].filterMap
         (fun r => specValueParse r.VALUE)) = [1500, 1700] := by
    simp [h3, h4]
  refine ⟨?_, ?_, by norm_num⟩
  · norm_num [processRecordsForAverage, hvv, agesOf]
  · rw [hsv]
    norm_num [meanOf]
    intro hcontra
    simp at hcontra

/-- C1 (amended): values are parsed by stripping `$` and `,` and applying
`parseFloat` (leading-prefix, unparsable discarded); the result value is
null when no value parses and otherwise the arithmetic mean of the parsable
values; with more than one record the data age is the rounded mean of the
present ages (absent when no value parses or no age is present), and with a
single record it is that record's age; the Toronto example averages to 1600
with rounded mean age. -/
theorem c1_amended_average_aggregation (records : List RentalRecord)
    (h : records ≠ []) :
    (processRecordsForAverage records).value = meanOf (validValuesOf records) ∧
    (1 < records.length →
      (processRecordsForAverage records).dataAge =
        (if validValuesOf records = [] then none
         else if agesOf records = [] then none
         else some (jsRound (((agesOf records).foldl (· + ·) 0 : ℚ) /
           ((agesOf records).length : ℚ))))) ∧
    (∀ r, records = [r] → (processRecordsForAverage records).dataAge = r.DataAge) ∧
    processRecordsForAverage
        [⟨"Toronto, Ontario", "1", "$1,500", "", some 12, none, ""⟩,
         ⟨"Toronto, Ontario", "1", "$1,700", "", some 14, none, ""⟩] =
      ⟨some 1600, some 13⟩ := by
  refine ⟨process_value_eq records h, ?_, ?_, ?_⟩
  · intro hlen
    match records, hlen with
    | r1 :: r2 :: rs, _ =>
      by_cases hv : validValuesOf (r1 :: r2 :: rs) = []
      · simp [processRecordsForAverage, hv, List.length_eq_zero]
      · by_cases ha : agesOf (r1 :: r2 :: rs) = [] <;>
          simp [processRecordsForAverage, hv, ha, List.length_eq_zero,
            List.length_pos]
  · intro r hr
    subst hr
    cases hp : parseValue r.VALUE <;> simp [processRecordsForAverage, hp]
  · have h1 : parseValue "$1,500" = some 1500 :=
      parseValue_eq_nat _ ['1', '5', '0', '0'] 1500 (by decide) (by decide)
    have h2 : parseValue "$1,700" = some 1700 :=
      parseValue_eq_nat _ ['1', '7', '0', '0'] 1700 (by decide) (by decide)
    simp [processRecordsForAverage, validValuesOf, agesOf, h1, h2, jsRound]
    norm_num

/-- C1 witness: the amended aggregation theorem applied to a concrete
single-record list. -/
theorem c1_amended_witness :
    (processRecordsForAverage [⟨"Barrie, Ontario", "1", "$900", "", some 3, none, ""⟩]).value
      = meanOf (validValuesOf [⟨"Barrie, Ontario", "1", "$900", "", some 3, none, ""⟩]) :=
  (c1_amended_average_aggregation
    [⟨"Barrie, Ontario", "1", "$900", "", some 3, none, ""⟩] (by simp)).1

/-- C2: the recency selection computes the maximum year present (ignoring
records with no year), narrows to that year only when it exceeds 2008, and
discards the year filter when the year-filtered set has fewer than 10
records while the full set has at least 10 — i.e. the source's
sort-descending-and-take-head selection coincides with the spec-words
maximum-year selection on every record list. -/
theorem c2_recency_selection (records : List RentalRecord) :
    selectRecent records = specRecencySelect records := by
  have hmax : (sortDesc (firstDedup (yearsOf records))).headD 0 =
      (yearsOf records).foldr max 0 := by
    rw [sortDesc_headD]
    exact foldrMax_congr _ _ fun x => mem_firstDedup x _
  simp only [selectRecent, specRecencySelect, hmax]

/-- The argmin loop keeps the first strict improvement: starting from a
candidate, the result is either the candidate (no key improves on `m`) or a
key of the list that strictly beats `m` and every key before it, and weakly
beats every key after it. -/
theorem pickClosestGo_cons (t : Int) (best : String) (m : Nat) (k : String)
    (ks : List String) :
    pickClosestGo t best (some m) (k :: ks) =
      if bedDist t k < m then pickClosestGo t k (some (bedDist t k)) ks
      else pickClosestGo t best (some m) ks := rfl

theorem pickClosestGo_spec (t : Int) (keys : List String) :
    ∀ best m,
      (pickClosestGo t best (some m) keys = best ∧
        ∀ k ∈ keys, m ≤ bedDist t k) ∨
      (∃ pre post, keys = pre ++ pickClosestGo t best (some m) keys :: post ∧
        bedDist t (pickClosestGo t best (some m) keys) < m ∧
        (∀ k ∈ pre, bedDist t (pickClosestGo t best (some m) keys) < bedDist t k) ∧
        (∀ k ∈ post, bedDist t (pickClosestGo t best (some m) keys) ≤ bedDist t k)) := by
  induction keys with
  | nil => intro best m; exact Or.inl ⟨rfl, by simp⟩
  | cons k ks ih =>
    intro best m
    by_cases hd : bedDist t k < m
    · rw [pickClosestGo_cons, if_pos hd]
      rcases ih k (bedDist t k) with ⟨heq, hall⟩ | ⟨pre, post, hsplit, hlt, hpre, hpost⟩
      · refine Or.inr ⟨[], ks, ?_, ?_, ?_, ?_⟩
        · simp [heq]
        · rw [heq]; exact hd
        · simp
        · rw [heq]; exact hall
      · refine Or.inr ⟨k :: pre, post, ?_, ?_, ?_, ?_⟩
        · rw [List.cons_append]
          exact congrArg (List.cons k) hsplit
        · exact lt_trans hlt hd
        · intro x hx
          rcases List.mem_cons.mp hx with rfl | hx'
          · exact hlt
          · exact hpre x hx'
        · exact hpost
    · rw [pickClosestGo_cons, if_neg hd]
      rcases ih best m with ⟨heq, hall⟩ | ⟨pre, post, hsplit, hlt, hpre, hpost⟩
      · refine Or.inl ⟨heq, ?_⟩
        intro x hx
        rcases List.mem_cons.mp hx with rfl | hx'
        · exact Nat.le_of_not_lt hd
        · exact hall x hx'
      · refine Or.inr ⟨k :: pre, post, ?_, hlt, ?_, hpost⟩
        · rw [List.cons_append]
          exact congrArg (List.cons k) hsplit
        · intro x hx
          rcases List.mem_cons.mp hx with rfl | hx'
          · exact lt_of_lt_of_le hlt (Nat.le_of_not_lt hd)
          · exact hpre x hx'

/-- The selected bucket is the first one of minimal distance in the
enumerated key order. -/
theorem pickClosest_spec (t : Int) (keys : List String) (hk : keys ≠ []) :
    ∃ pre post, keys = pre ++ pickClosest t keys :: post ∧
      (∀ k ∈ pre, bedDist t (pickClosest t keys) < bedDist t k) ∧
      (∀ k ∈ post, bedDist t (pickClosest t keys) ≤ bedDist t k) := by
  match keys, hk with
  | k :: ks, _ =>
    have hstep : pickClosest t (k :: ks) = pickClosestGo t k (some (bedDist t k)) ks := rfl
    rcases pickClosestGo_spec t ks k (bedDist t k) with ⟨heq, hall⟩ | ⟨pre, post, hsplit, hlt, hpre, hpost⟩
    · refine ⟨[], ks, ?_, by simp, ?_⟩
      · rw [hstep, heq]; rfl
      · rw [hstep, heq]; exact hall
    · refine ⟨k :: pre, post, ?_, ?_, ?_⟩
      · rw [hstep, List.cons_append]
        exact congrArg (List.cons k) hsplit
      · intro x hx
        rw [hstep]
        rcases List.mem_cons.mp hx with rfl | hx'
        · exact hlt
        · exact hpre x hx'
      · intro x hx
        rw [hstep]
        exact hpost x hx

/-- Association lookup at the head key. -/
theorem lookup_cons_self {β : Type} (k : String) (v : β) (es : List (String × β)) :
    List.lookup k ((k, v) :: es) = some v := by
  simp [List.lookup]

/-- Association lookup skipping a different head key. -/
theorem lookup_cons_of_ne {β : Type} (b k : String) (v : β) (es : List (String × β))
    (h : ¬b = k) : List.lookup b ((k, v) :: es) = List.lookup b es := by
  simp [List.lookup, beq_false_of_ne h]

/-- Looking up in the bucket map after appending a record to its existing
bucket. -/
theorem lookup_map_update (gs : List (String × List RentalRecord)) (k : String)
    (r : RentalRecord) (b : String) :
    (gs.map (fun g => if g.1 == k then (g.1, g.2 ++ [r]) else g)).lookup b =
      if b = k then (gs.lookup b).map (fun v => v ++ [r]) else gs.lookup b := by
  induction gs with
  | nil => by_cases h : b = k <;> simp [List.lookup, h]
  | cons g gs ih =>
    obtain ⟨gk, gv⟩ := g
    rw [List.map_cons]
    by_cases h1 : gk = k
    · subst h1
      rw [show (if ((gk, gv).1 == gk) = true then ((gk, gv).1, (gk, gv).2 ++ [r])
          else (gk, gv)) = (gk, gv ++ [r]) from by simp]
      by_cases h2 : b = gk
      · subst h2
        rw [lookup_cons_self, lookup_cons_self, if_pos rfl]
        rfl
      · rw [lookup_cons_of_ne _ _ _ _ h2, lookup_cons_of_ne _ _ _ _ h2, ih]
    · rw [show (if ((gk, gv).1 == k) = true then ((gk, gv).1, (gk, gv).2 ++ [r])
          else (gk, gv)) = (gk, gv) from by simp [beq_false_of_ne h1]]
      by_cases h2 : b = gk
      · subst h2
        rw [lookup_cons_self, lookup_cons_self, if_neg h1]
      · rw [lookup_cons_of_ne _ _ _ _ h2, lookup_cons_of_ne _ _ _ _ h2, ih]

/-- Looking up in a bucket map extended with a fresh bucket at the end. -/
theorem lookup_append_single (gs : List (String × List RentalRecord))
    (kb : String) (v : List RentalRecord) (b : String) :
    (gs ++ [(kb, v)]).lookup b =
      (match gs.lookup b with
       | some x => some x
       | none => if b = kb then some v else none) := by
  induction gs with
  | nil =>
    by_cases h : b = kb
    · subst h
      rw [List.nil_append, lookup_cons_self]
      simp [List.lookup]
    · rw [List.nil_append, lookup_cons_of_ne _ _ _ _ h]
      simp [List.lookup, h]
  | cons g gs ih =>
    obtain ⟨gk, gv⟩ := g
    rw [List.cons_append]
    by_cases h : b = gk
    · subst h
      rw [lookup_cons_self, lookup_cons_self]
    · rw [lookup_cons_of_ne _ _ _ _ h, lookup_cons_of_ne _ _ _ _ h, ih]

/-- One foldl step of the grouping. -/
theorem groupBy_append_singleton (l : List RentalRecord) (r : RentalRecord) :
    groupByBedrooms (l ++ [r]) = addToGroups (groupByBedrooms l) r := by
  rw [groupByBedrooms, groupByBedrooms, List.foldl_append]
  rfl

/-- Updating a bucket in place does not change the keys seen by `any`. -/
theorem any_fst_map_update (gs : List (String × List RentalRecord)) (k : String)
    (r : RentalRecord) (b : String) :
    (gs.map (fun g => if g.1 == k then (g.1, g.2 ++ [r]) else g)).any
        (fun g => g.1 == b) =
      gs.any (fun g => g.1 == b) := by
  induction gs with
  | nil => rfl
  | cons g gs ih =>
    obtain ⟨gk, gv⟩ := g
    by_cases h : gk = k
    · subst h
      simp only [List.map_cons, List.any_cons, ih]
      simp
    · simp only [List.map_cons, List.any_cons, ih, beq_false_of_ne h]
      simp

/-- Key presence in the bucket map and the bucket contents: a bucket key is
present exactly when a record of that bucket occurs, and its group is the
sublist of records of that bucket, in encounter order. -/
theorem groupBy_props (recs : List RentalRecord) :
    ∀ b, ((groupByBedrooms recs).any (fun g => g.1 == b) =
            recs.any (fun r => r.Bedrooms == b)) ∧
      ((groupByBedrooms recs).lookup b =
        if recs.any (fun r => r.Bedrooms == b) = true then
          some (recs.filter (fun r => r.Bedrooms == b))
        else none) := by
  induction recs using List.reverseRecOn with
  | nil => intro b; simp [groupByBedrooms, List.lookup]
  | append_singleton l r ih =>
    intro b
    rw [groupBy_append_singleton]
    have ihb := ih b
    have ihr := ih r.Bedrooms
    have hanyapp : (l ++ [r]).any (fun x => x.Bedrooms == b) =
        (l.any (fun x => x.Bedrooms == b) || (r.Bedrooms == b)) := by
      simp [List.any_append]
    by_cases hany : l.any (fun x => x.Bedrooms == r.Bedrooms) = true
    · have hg : (groupByBedrooms l).any (fun g => g.1 == r.Bedrooms) = true := by
        rw [ihr.1]; exact hany
      rw [addToGroups, if_pos hg]
      refine ⟨?_, ?_⟩
      · rw [any_fst_map_update, ihb.1, hanyapp]
        by_cases hb : r.Bedrooms = b
        · rw [beq_iff_eq.mpr hb, Bool.or_true]
          rw [show l.any (fun x => x.Bedrooms == b) = true from by
            rw [← hb]; exact hany]
        · rw [beq_false_of_ne hb, Bool.or_false]
      · rw [lookup_map_update, ihb.2]
        by_cases hb : b = r.Bedrooms
        · subst hb
          rw [if_pos rfl, if_pos hany]
          have h2 : (l ++ [r]).any (fun x => x.Bedrooms == r.Bedrooms) = true := by
            rw [hanyapp, beq_self_eq_true, Bool.or_true]
          rw [if_pos h2]
          have h3 : (l ++ [r]).filter (fun x => x.Bedrooms == r.Bedrooms) =
              l.filter (fun x => x.Bedrooms == r.Bedrooms) ++ [r] := by
            rw [List.filter_append, List.filter_singleton, beq_self_eq_true]
            rfl
          rw [h3]
          rfl
        · rw [if_neg hb]
          have hne : (r.Bedrooms == b) = false := beq_false_of_ne (Ne.symm hb)
          rw [hanyapp, hne, Bool.or_false]
          have h3 : (l ++ [r]).filter (fun x => x.Bedrooms == b) =
              l.filter (fun x => x.Bedrooms == b) := by
            rw [List.filter_append, List.filter_singleton, hne]
            simp
          rw [h3]
    · have hg : ¬((groupByBedrooms l).any (fun g => g.1 == r.Bedrooms) = true) := by
        rw [ihr.1]; exact hany
      rw [addToGroups, if_neg hg]
      refine ⟨?_, ?_⟩
      · rw [List.any_append, ihb.1, hanyapp]
        simp
      · rw [lookup_append_single, ihb.2]
        by_cases h1 : l.any (fun x => x.Bedrooms == b) = true
        · rw [if_pos h1]
          have h2 : (l ++ [r]).any (fun x => x.Bedrooms == b) = true := by
            rw [hanyapp, h1, Bool.true_or]
          rw [if_pos h2]
          have hrb : (r.Bedrooms == b) = false := by
            by_cases hx : r.Bedrooms = b
            · exact absurd (by rw [hx]; exact h1) hany
            · exact beq_false_of_ne hx
          have h3 : (l ++ [r]).filter (fun x => x.Bedrooms == b) =
              l.filter (fun x => x.Bedrooms == b) := by
            rw [List.filter_append, List.filter_singleton, hrb]
            simp
          rw [h3]
        · rw [if_neg h1]
          by_cases hb : b = r.Bedrooms
          · subst hb
            have h2 : (l ++ [r]).any (fun x => x.Bedrooms == r.Bedrooms) = true := by
              rw [hanyapp, beq_self_eq_true, Bool.or_true]
            rw [if_pos h2]
            have h3 : l.filter (fun x => x.Bedrooms == r.Bedrooms) = [] := by
              rw [List.filter_eq_nil_iff]
              intro a ha hpa
              exact h1 (List.any_eq_true.mpr ⟨a, ha, hpa⟩)
            have h4 : (l ++ [r]).filter (fun x => x.Bedrooms == r.Bedrooms) = [r] := by
              rw [List.filter_append, List.filter_singleton, beq_self_eq_true, h3]
              rfl
            rw [h4]
            simp
          · have hne : (r.Bedrooms == b) = false := beq_false_of_ne (Ne.symm hb)
            have h2 : ¬((l ++ [r]).any (fun x => x.Bedrooms == b) = true) := by
              rw [hanyapp, hne, Bool.or_false]
              exact h1
            rw [if_neg h2]
            simp [hb]

/-- Membership through ascending insertion. -/
theorem mem_insertAscIdx (x y : String) (l : List String) :
    y ∈ insertAscIdx x l ↔ y = x ∨ y ∈ l := by
  induction l with
  | nil => simp [insertAscIdx]
  | cons z zs ih =>
    by_cases h : digitsToNat x.data ≤ digitsToNat z.data
    · rw [insertAscIdx, if_pos h]
      simp
    · rw [insertAscIdx, if_neg h]
      simp [ih]
      tauto

/-- The ascending sort preserves membership. -/
theorem mem_sortAscIdx (y : String) (l : List String) :
    y ∈ sortAscIdx l ↔ y ∈ l := by
  induction l with
  | nil => simp [sortAscIdx]
  | cons z zs ih =>
    rw [show sortAscIdx (z :: zs) = insertAscIdx z (sortAscIdx zs) from rfl,
      mem_insertAscIdx]
    simp [ih]

/-- The JS key enumeration order preserves membership. -/
theorem mem_jsKeysOrder (y : String) (keys : List String) :
    y ∈ jsKeysOrder keys ↔ y ∈ keys := by
  rw [jsKeysOrder, List.mem_append, mem_sortAscIdx]
  simp only [List.mem_filter]
  by_cases h : isArrayIndexKey y = true <;> simp [h]

/-- C5 (amended): when approaches 1-4 all miss but a plain city-name match
exists, the matches are grouped by bedroom bucket, buckets are mapped to the
numeric scale (bedroomNumeric) and the group of the bucket with the smallest
distance to the requested bedroom count is averaged; ties are broken by the
order the bucket keys enumerate, which is integer-like bucket labels in
ascending numeric order first, then the remaining labels in encounter order
(not plain encounter order as the claim states). -/
theorem c5_amended_closest_bedroom (data : List RentalRecord) (city beds : String)
    (h1 : approach1 data city beds = [])
    (h2 : approach2 data city beds = [])
    (h3 : approach3 data city beds = [])
    (h4 : approach4 data city beds = [])
    (h5 : cityOnlyMatches data city ≠ []) :
    ∃ b pre post,
      jsKeysOrder ((groupByBedrooms (cityOnlyMatches data city)).map Prod.fst) =
        pre ++ b :: post ∧
      (∀ k ∈ pre, bedDist (bedroomNumeric beds) b < bedDist (bedroomNumeric beds) k) ∧
      (∀ k ∈ post, bedDist (bedroomNumeric beds) b ≤ bedDist (bedroomNumeric beds) k) ∧
      (¬b = "" → getAverage data city beds =
        processRecordsForAverage
          ((cityOnlyMatches data city).filter (fun r => r.Bedrooms == b))) ∧
      (b = "" → getAverage data city beds = AvgResult.mk none none) := by
  have hdata : ¬(data.isEmpty = true) := by
    intro hde
    rw [List.isEmpty_iff] at hde
    subst hde
    exact h5 rfl
  obtain ⟨r0, hr0⟩ := List.exists_mem_of_ne_nil _ h5
  have hco : (cityOnlyMatches data city).any
      (fun r => r.Bedrooms == r0.Bedrooms) = true :=
    List.any_eq_true.mpr ⟨r0, hr0, beq_self_eq_true _⟩
  have hkey : r0.Bedrooms ∈
      (groupByBedrooms (cityOnlyMatches data city)).map Prod.fst := by
    have hga : (groupByBedrooms (cityOnlyMatches data city)).any
        (fun g => g.1 == r0.Bedrooms) = true := by
      rw [(groupBy_props _ r0.Bedrooms).1]
      exact hco
    obtain ⟨g, hg, hgb⟩ := List.any_eq_true.mp hga
    exact List.mem_map.mpr ⟨g, hg, beq_iff_eq.mp hgb⟩
  have hordered : jsKeysOrder
      ((groupByBedrooms (cityOnlyMatches data city)).map Prod.fst) ≠ [] := by
    intro he
    have hmem := (mem_jsKeysOrder r0.Bedrooms _).mpr hkey
    rw [he] at hmem
    cases hmem
  obtain ⟨pre, post, hsplit, hpre, hpost⟩ :=
    pickClosest_spec (bedroomNumeric beds) _ hordered
  have hcas : cascadeMatches data city beds = closestGroup data city beds := by
    simp [cascadeMatches, h1, h2, h3, h4]
  have hcoE : ¬((cityOnlyMatches data city).isEmpty = true) := by
    intro hde
    rw [List.isEmpty_iff] at hde
    exact h5 hde
  refine ⟨pickClosest (bedroomNumeric beds)
    (jsKeysOrder ((groupByBedrooms (cityOnlyMatches data city)).map Prod.fst)),
    pre, post, hsplit, hpre, hpost, ?_, ?_⟩
  · intro hbne
    have hpickmem : pickClosest (bedroomNumeric beds)
        (jsKeysOrder ((groupByBedrooms (cityOnlyMatches data city)).map Prod.fst)) ∈
        (groupByBedrooms (cityOnlyMatches data city)).map Prod.fst := by
      have hstep : pickClosest (bedroomNumeric beds)
          (jsKeysOrder ((groupByBedrooms (cityOnlyMatches data city)).map Prod.fst)) ∈
          pre ++ pickClosest (bedroomNumeric beds)
            (jsKeysOrder ((groupByBedrooms (cityOnlyMatches data city)).map Prod.fst)) :: post :=
        List.mem_append_right _ (List.mem_cons_self _ _)
      rw [← hsplit] at hstep
      exact (mem_jsKeysOrder _ _).mp hstep
    have hanyP : (cityOnlyMatches data city).any
        (fun r => r.Bedrooms == pickClosest (bedroomNumeric beds)
          (jsKeysOrder ((groupByBedrooms (cityOnlyMatches data city)).map Prod.fst))) = true := by
      rw [← (groupBy_props _ _).1]
      obtain ⟨g, hg, hgb⟩ := List.mem_map.mp hpickmem
      exact List.any_eq_true.mpr ⟨g, hg, by rw [hgb]; exact beq_self_eq_true _⟩
    have hlookup : (groupByBedrooms (cityOnlyMatches data city)).lookup
        (pickClosest (bedroomNumeric beds)
          (jsKeysOrder ((groupByBedrooms (cityOnlyMatches data city)).map Prod.fst))) =
        some ((cityOnlyMatches data city).filter
          (fun r => r.Bedrooms == pickClosest (bedroomNumeric beds)
            (jsKeysOrder ((groupByBedrooms (cityOnlyMatches data city)).map Prod.fst)))) := by
      rw [(groupBy_props _ _).2, if_pos hanyP]
    have hfilne : (cityOnlyMatches data city).filter
        (fun r => r.Bedrooms == pickClosest (bedroomNumeric beds)
          (jsKeysOrder ((groupByBedrooms (cityOnlyMatches data city)).map Prod.fst))) ≠ [] := by
      obtain ⟨a, ha, hpa⟩ := List.any_eq_true.mp hanyP
      intro hnil
      have : a ∈ ([] : List RentalRecord) := hnil ▸ List.mem_filter.mpr ⟨ha, hpa⟩
      cases this
    have hbneb : ¬((pickClosest (bedroomNumeric beds)
        (jsKeysOrder ((groupByBedrooms (cityOnlyMatches data city)).map Prod.fst)) == "") = true) := by
      intro hx
      exact hbne (beq_iff_eq.mp hx)
    have hcg : closestGroup data city beds =
        (cityOnlyMatches data city).filter
          (fun r => r.Bedrooms == pickClosest (bedroomNumeric beds)
            (jsKeysOrder ((groupByBedrooms (cityOnlyMatches data city)).map Prod.fst))) := by
      simp only [closestGroup]
      rw [if_neg hcoE, if_neg hbneb, hlookup]
      rfl
    simp only [getAverage]
    rw [if_neg hdata, hcas, hcg]
    cases hfil : (cityOnlyMatches data city).filter
        (fun r => r.Bedrooms == pickClosest (bedroomNumeric beds)
          (jsKeysOrder ((groupByBedrooms (cityOnlyMatches data city)).map Prod.fst))) with
    | nil => exact absurd hfil hfilne
    | cons a as => rfl
  · intro hbe
    have hcg : closestGroup data city beds = [] := by
      simp only [closestGroup]
      rw [if_neg hcoE, if_pos (by rw [hbe]; rfl)]
    simp only [getAverage]
    rw [if_neg hdata, hcas, hcg]

/-- C5 counterexample: the claim says distance ties are broken by the order
buckets are encountered.  For `tieBreakData` and requested bedrooms `"1"`,
buckets "2" and "0" are both at distance 1 and "2" is encountered first, so
the claim predicts the "2" group (average 2000); but JS object keys
enumerate integer-like keys in ascending numeric order first, so the code
iterates "0" before "2" and returns the "0" group average 1000. -/
theorem c5_claim_counterexample :
    pickClosest (bedroomNumeric "1")
        ((groupByBedrooms (cityOnlyMatches tieBreakData "Hamilton")).map Prod.fst) =
      "2" ∧
    processRecordsForAverage
        ((cityOnlyMatches tieBreakData "Hamilton").filter
          (fun r => r.Bedrooms == "2")) = ⟨some 2000, none⟩ ∧
    getAverage tieBreakData "Hamilton" "1" = ⟨some 1000, none⟩ ∧
    ¬(AvgResult.mk (some 1000) none = AvgResult.mk (some 2000) none) := by
  have h20 : parseValue "$2,000" = some 2000 :=
    parseValue_eq_nat _ ['2', '0', '0', '0'] 2000 (by decide) (by decide)
  have h10 : parseValue "$1,000" = some 1000 :=
    parseValue_eq_nat _ ['1', '0', '0', '0'] 1000 (by decide) (by decide)
  refine ⟨by decide, ?_, ?_, ?_⟩
  · have hfil : (cityOnlyMatches tieBreakData "Hamilton").filter
        (fun r => r.Bedrooms == "2") =
        [⟨"Hamilton, Ontario", "2", "$2,000", "", none, none, ""⟩] := by decide
    rw [hfil]
    simp [processRecordsForAverage, h20]
  · have hcas : cascadeMatches tieBreakData "Hamilton" "1" =
        [⟨"Hamilton, Ontario", "0", "$1,000", "", none, none, ""⟩] := by decide
    simp only [getAverage]
    rw [if_neg (by decide : ¬(tieBreakData.isEmpty = true)), hcas]
    simp [processRecordsForAverage, h10]
  · intro hx
    have := (AvgResult.mk.injEq _ _ _ _).mp hx
    simp at this

/-- C5 witness: the amended closest-bedroom theorem applied to the claim's
Hamilton example (buckets "2" and "3+", requested "0"). -/
theorem c5_amended_witness :
    ∃ b pre post,
      jsKeysOrder ((groupByBedrooms (cityOnlyMatches hamClaimData "Hamilton")).map
          Prod.fst) = pre ++ b :: post ∧
      (∀ k ∈ pre, bedDist (bedroomNumeric "0") b < bedDist (bedroomNumeric "0") k) ∧
      (∀ k ∈ post, bedDist (bedroomNumeric "0") b ≤ bedDist (bedroomNumeric "0") k) ∧
      (¬b = "" → getAverage hamClaimData "Hamilton" "0" =
        processRecordsForAverage
          ((cityOnlyMatches hamClaimData "Hamilton").filter
            (fun r => r.Bedrooms == b))) ∧
      (b = "" → getAverage hamClaimData "Hamilton" "0" = AvgResult.mk none none) :=
  c5_amended_closest_bedroom hamClaimData "Hamilton" "0"
    (by decide) (by decide) (by decide) (by decide) (by decide)

/-- Every string contains the empty string. -/
theorem strIncludes_empty (s : String) : strIncludes s "" = true := by
  rw [strIncludes]
  cases s.data with
  | nil => rfl
  | cons c t => simp [hasSub, leadMatch]

/-- A record set with at least one parsable value averages to a non-null
value. -/
theorem process_value_ne_none (recs : List RentalRecord) (hne : recs ≠ [])
    (h : ∃ r ∈ recs, parseValue r.VALUE ≠ none) :
    (processRecordsForAverage recs).value ≠ none := by
  rw [process_value_eq recs hne]
  obtain ⟨r, hr, hp⟩ := h
  cases hv : parseValue r.VALUE with
  | none => exact absurd hv hp
  | some v =>
    have hmem : v ∈ validValuesOf recs :=
      List.mem_filterMap.mpr ⟨r, hr, hv⟩
    have hvne : validValuesOf recs ≠ [] := by
      intro hnil
      rw [hnil] at hmem
      cases hmem
    rw [meanOf, if_neg hvne]
    simp

/-- C10 counterexample: the claim asserts the empty-city lookup is non-null
whenever some record has the requested bucket; with a single record of
bucket "1" whose value string has no parsable number, the lookup matches it
but the result value is still null. -/
theorem c10_claim_counterexample :
    ((⟨"Toronto, Ontario", "1", "abc", "", some 4, none, ""⟩ : RentalRecord).Bedrooms
        = "1") ∧
    (getAverage [⟨"Toronto, Ontario", "1", "abc", "", some 4, none, ""⟩] "" "1").value
        = none := by
  refine ⟨rfl, ?_⟩
  have hcas : cascadeMatches
      [⟨"Toronto, Ontario", "1", "abc", "", some 4, none, ""⟩] "" "1" =
      [⟨"Toronto, Ontario", "1", "abc", "", some 4, none, ""⟩] := by decide
  have hab : parseValue "abc" = none := parseValue_none _ (by decide)
  simp only [getAverage]
  rw [if_neg (by decide), hcas]
  simp [processRecordsForAverage, hab]

/-- C10 (amended): for the empty city name, when the exact-match strategy
finds nothing, the partial-match strategy matches every record (substring
containment of the empty string always holds), so the result is the average
over all records of the requested bedroom bucket; the value is non-null
whenever at least one such record's value string parses to a number (not
unconditionally, as the claim states). -/
theorem c10_amended_empty_city (data : List RentalRecord) (beds : String)
    (h1 : approach1 data "" beds = [])
    (h2 : data.filter (fun r => r.Bedrooms == beds) ≠ []) :
    getAverage data "" beds =
      processRecordsForAverage (data.filter (fun r => r.Bedrooms == beds)) ∧
    ((∃ r ∈ data.filter (fun r => r.Bedrooms == beds), parseValue r.VALUE ≠ none) →
      (getAverage data "" beds).value ≠ none) := by
  have ha2 : approach2 data "" beds = data.filter (fun r => r.Bedrooms == beds) := by
    rw [approach2, cityBedsMatches]
    congr 1
    funext item
    rw [show toLowerStr "" = "" from rfl, strIncludes_empty, Bool.true_and]
  have hdata : ¬(data.isEmpty = true) := by
    intro hde
    rw [List.isEmpty_iff] at hde
    subst hde
    simp at h2
  have hfE : (data.filter (fun r => r.Bedrooms == beds)).isEmpty = false := by
    cases hfil : data.filter (fun r => r.Bedrooms == beds) with
    | nil => exact absurd hfil h2
    | cons a as => rfl
  have hcas : cascadeMatches data "" beds =
      data.filter (fun r => r.Bedrooms == beds) := by
    simp only [cascadeMatches]
    rw [h1]
    simp only [List.isEmpty_nil, Bool.not_true, Bool.false_eq_true, if_false]
    rw [ha2, hfE]
    simp
  have hmain : getAverage data "" beds =
      processRecordsForAverage (data.filter (fun r => r.Bedrooms == beds)) := by
    simp only [getAverage]
    rw [if_neg hdata, hcas]
    cases hfil : data.filter (fun r => r.Bedrooms == beds) with
    | nil => exact absurd hfil h2
    | cons a as => rfl
  refine ⟨hmain, ?_⟩
  intro hex
  rw [hmain]
  exact process_value_ne_none _ h2 hex

/-- C10 witness: the amended empty-city theorem at a concrete dataset with a
parsable value. -/
theorem c10_amended_witness :
    getAverage [⟨"Toronto, Ontario", "1", "$1,500", "", none, none, ""⟩] "" "1" =
      processRecordsForAverage
        ([(⟨"Toronto, Ontario", "1", "$1,500", "", none, none, ""⟩ : RentalRecord)].filter
          (fun r => r.Bedrooms == "1")) :=
  (c10_amended_empty_city
    [⟨"Toronto, Ontario", "1", "$1,500", "", none, none, ""⟩] "1"
    (by decide) (by decide)).1

/-- C6: when the category-filtered matching procedure yields zero matches,
the lookup retries the whole procedure with the filter removed, so the
category-filtered result equals the unfiltered result for the same city and
bedrooms. -/
theorem c6_category_fallback (data : List RentalRecord) (city beds c : String)
    (h : cascadeMatches (data.filter (fun r => r.Category == c)) city beds = []) :
    getAverageWithCategory data city beds (some c) = getAverage data city beds ∧
    getAverageWithCategory data city beds none = getAverage data city beds := by
  constructor
  · simp only [getAverageWithCategory]
    rw [h]
  · rfl

/-- C6 witness: a dataset whose only record is Low-Rise, queried with a
Highrise filter, falls back to the unfiltered result. -/
theorem c6_witness :
    getAverageWithCategory
        [⟨"Toronto, Ontario", "1", "$1,500", "", none, none, "Low-Rise"⟩]
        "Toronto" "1" (some "Highrise") =
      getAverage [⟨"Toronto, Ontario", "1", "$1,500", "", none, none, "Low-Rise"⟩]
        "Toronto" "1" :=
  (c6_category_fallback
    [⟨"Toronto, Ontario", "1", "$1,500", "", none, none, "Low-Rise"⟩]
    "Toronto" "1" "Highrise" (by decide)).1

/-- C7: `mapStructureTypeToCategory` is an exact lookup over the fixed
4-entry table: each of the four structure-type phrases maps to its housing
category, and every other string maps to the empty string. -/
theorem c7_mapStructureTypeToCategory :
    mapStructureTypeToCategory "Row and apartment structures of three units and over"
        = "Multi-Plex" ∧
    mapStructureTypeToCategory "Row structures of three units and over"
        = "Townhouse" ∧
    mapStructureTypeToCategory "Apartment structures of three units and over"
        = "Low-Rise" ∧
    mapStructureTypeToCategory "Apartment structures of six units and over"
        = "Highrise" ∧
    (∀ label, (∀ p ∈ structureTypeTable, ¬p.1 = label) →
      mapStructureTypeToCategory label = "") := by
  refine ⟨by decide, by decide, by decide, by decide, ?_⟩
  intro label h
  rw [mapStructureTypeToCategory]
  have hfind : structureTypeTable.find? (fun e => e.1 == label) = none := by
    rw [List.find?_eq_none]
    intro x hx
    simp only [beq_iff_eq]
    exact h x hx
  rw [hfind]

/-- C7 witness: the no-match branch at a concrete unknown label. -/
theorem c7_witness : mapStructureTypeToCategory "penthouse" = "" :=
  c7_mapStructureTypeToCategory.2.2.2.2 "penthouse" (by decide)

/-- C3 counterexample: the pipeline spreads the raw columns into the output
record last, so a raw column literally named `GEO` overwrites the geography
that passed the Ontario filter.  With the geography column identified as
`Geography` (first matching header) and a second raw column `GEO` holding
`"Montreal, Quebec"`, the emitted record's geography is exactly the value
the claim says is never emitted, and it fails the heuristic. -/
theorem c3_claim_counterexample :
    (processRows (fun _ => (none, none))
        (computeFieldMap [[("Geography", "Toronto, Ontario"), ("GEO", "Montreal, Quebec"),
          ("rent value", "$1,000"), ("bedroom", "one bedroom units")]])
        [[("Geography", "Toronto, Ontario"), ("GEO", "Montreal, Quebec"),
          ("rent value", "$1,000"), ("bedroom", "one bedroom units")]]).map
      (fun r => r.GEO) = ["Montreal, Quebec"] ∧
    ontarioHeuristic "Montreal, Quebec" = false :=
  ⟨by decide, by decide⟩

/-- C3 (amended): every record emitted by the pipeline has non-empty
bedrooms and non-empty value; and whenever no raw row carries a literal
`GEO` column other than the mapped geography column, every emitted record's
geography satisfies the Ontario heuristic, which accepts
`"Toronto, Ontario"` and `"Ottawa-Gatineau, Ontario part"` and rejects
`"Montreal, Quebec"`. -/
theorem c3_amended_pipeline_invariants (di : String → Option Nat × Option Int)
    (fm : FieldMap) (rows : List RawRecord) :
    (∀ rec ∈ processRows di fm rows, ¬rec.Bedrooms = "" ∧ ¬rec.VALUE = "") ∧
    ((∀ row ∈ rows, row.lookup "GEO" = none ∨ fm.GEO = "GEO") →
      ∀ rec ∈ processRows di fm rows, ontarioHeuristic rec.GEO = true) ∧
    ontarioHeuristic "Toronto, Ontario" = true ∧
    ontarioHeuristic "Ottawa-Gatineau, Ontario part" = true ∧
    ontarioHeuristic "Montreal, Quebec" = false := by
  refine ⟨?_, ?_, by decide, by decide, by decide⟩
  · intro rec hrec
    simp only [processRows] at hrec
    have hp := (List.mem_filter.mp hrec).2
    simp only [Bool.and_eq_true, Bool.not_eq_true', beq_eq_false_iff_ne, ne_eq] at hp
    exact hp
  · intro hga rec hrec
    simp only [processRows] at hrec
    have hmem := (List.mem_filter.mp hrec).1
    obtain ⟨row, hrow, hemit⟩ := List.mem_map.mp hmem
    have hp2 := (List.mem_filter.mp hrow).2
    have hrowmem : row ∈ rows :=
      List.mem_of_mem_filter (List.mem_filter.mp hrow).1
    have hont : ontarioHeuristic (rawGet row fm.GEO) = true := by
      rw [Bool.and_eq_true] at hp2
      exact hp2.2
    have hgeo : rec.GEO = rawGet row fm.GEO := by
      rw [← hemit]
      simp only [emitRecord]
      rcases hga row hrowmem with hnone | hgeoeq
      · rw [hnone]
        rfl
      · rw [hgeoeq]
        cases hl : row.lookup "GEO" with
        | none => rfl
        | some v => simp [rawGet, hl]
    rw [hgeo]
    exact hont

/-- C3 witness: the amended invariant at a concrete row with no literal
`GEO` column, whose emitted record is Ontario. -/
theorem c3_amended_witness :
    ontarioHeuristic
      (RentalRecord.mk "Toronto, Ontario" "1" "$1,000" "" none none "").GEO = true :=
  (c3_amended_pipeline_invariants (fun _ => (none, none))
    (computeFieldMap [[("Geography", "Toronto, Ontario"), ("rent value", "$1,000"),
      ("bedroom", "one bedroom units")]])
    [[("Geography", "Toronto, Ontario"), ("rent value", "$1,000"),
      ("bedroom", "one bedroom units")]]).2.1
    (by decide)
    (RentalRecord.mk "Toronto, Ontario" "1" "$1,000" "" none none "")
    (by decide)

/-- C8: the dataset acquisition is total (a Lean function cannot throw) and
every failure stage — network error, non-ok response, malformed JSON,
missing data field, empty parse result — yields the empty record list, as
does a dataset with no Ontario rows. -/
theorem c8_fetch_failure_empty (env : FetchEnv) :
    ((env.api = ApiResult.networkError ∨ env.api = ApiResult.httpError ∨
        env.api = ApiResult.badJson ∨ env.api = ApiResult.noDataField) →
      fetchRentalData env = []) ∧
    (env.api = ApiResult.ok [] → fetchRentalData env = []) ∧
    (∀ rows, env.api = ApiResult.ok rows →
      (∀ row ∈ rows, ontarioHeuristic (rawGet row (computeFieldMap rows).GEO) = false) →
      fetchRentalData env = []) := by
  refine ⟨?_, ?_, ?_⟩
  · rintro (h | h | h | h) <;> simp [fetchRentalData, h]
  · intro h
    simp [fetchRentalData, h]
  · intro rows h hont
    cases rows with
    | nil => simp [fetchRentalData, h]
    | cons r rs =>
      have hpr : processRows env.dateInfo (computeFieldMap (r :: rs)) (r :: rs) = [] := by
        apply List.eq_nil_iff_forall_not_mem.mpr
        intro x hx
        simp only [processRows] at hx
        have hmem := (List.mem_filter.mp hx).1
        obtain ⟨row, hrow, _⟩ := List.mem_map.mp hmem
        have hp2 := (List.mem_filter.mp hrow).2
        have hrowmem : row ∈ r :: rs :=
          List.mem_of_mem_filter (List.mem_filter.mp hrow).1
        have hofalse := hont row hrowmem
        rw [Bool.and_eq_true] at hp2
        rw [hofalse] at hp2
        exact Bool.false_ne_true hp2.2
      simp only [fetchRentalData, h]
      rw [if_neg (by simp), hpr]
      decide

/-- C8 witness: the failure theorem at three concrete environments — an
HTTP error, an empty parse, and a dataset whose only row is not in
Ontario. -/
theorem c8_witness :
    fetchRentalData ⟨ApiResult.httpError, fun _ => (none, none)⟩ = [] ∧
    fetchRentalData ⟨ApiResult.ok [], fun _ => (none, none)⟩ = [] ∧
    fetchRentalData
      ⟨ApiResult.ok [[("GEO", "Montreal, Quebec"), ("VALUE", "$900")]],
        fun _ => (none, none)⟩ = [] :=
  ⟨(c8_fetch_failure_empty _).1 (Or.inr (Or.inl rfl)),
   (c8_fetch_failure_empty _).2.1 rfl,
   (c8_fetch_failure_empty _).2.2 _ rfl (by decide)⟩

/-- C9 counterexample: with the rate limit of the spec's acquisition order,
a call arriving within the check interval skips the signal check and
returns the stale cached list even though the signal timestamp (1500) has
advanced past the last check time (1000): at `now = 1030` the acquirer
returns the old record, not the fresh one. -/
theorem c9_claim_counterexample :
    (acquireDataset
        (CacheState.mk (some [⟨"Toronto, Ontario", "1", "$1,400", "", none, none, ""⟩]) 1000)
        (AcquireEnv.mk (some 1500) 1030
          [⟨"Toronto, Ontario", "1", "$1,600", "", none, none, ""⟩])).1 =
      [⟨"Toronto, Ontario", "1", "$1,400", "", none, none, ""⟩] ∧
    ¬([(⟨"Toronto, Ontario", "1", "$1,400", "", none, none, ""⟩ : RentalRecord)] =
      [(⟨"Toronto, Ontario", "1", "$1,600", "", none, none, ""⟩ : RentalRecord)]) :=
  ⟨by decide, by decide⟩

/-- C9 (amended): once the rate-limit interval has elapsed since the last
invalidation check, an acquisition call that observes a signal timestamp
newer than the last check clears the cache and re-fetches: it returns the
fresh dataset and caches it, regardless of what was cached before. -/
theorem c9_amended_invalidation (st : CacheState) (env : AcquireEnv) (s : Int)
    (hs : env.signalTimestamp = some s)
    (hnew : s > st.lastInvalidationCheck)
    (hrate : env.now - st.lastInvalidationCheck ≥ checkInterval) :
    (acquireDataset st env).1 = env.fresh ∧
    (acquireDataset st env).2.records = some env.fresh := by
  simp only [acquireDataset, hs]
  rw [if_pos hrate, if_pos hnew]
  exact ⟨rfl, rfl⟩

/-- C9 witness: the amended invalidation theorem at a concrete stale cache,
signal and clock. -/
theorem c9_amended_witness :
    (acquireDataset
        (CacheState.mk (some [⟨"Toronto, Ontario", "1", "$1,400", "", none, none, ""⟩]) 1000)
        (AcquireEnv.mk (some 1500) 1100
          [⟨"Toronto, Ontario", "1", "$1,600", "", none, none, ""⟩])).1 =
      [⟨"Toronto, Ontario", "1", "$1,600", "", none, none, ""⟩] ∧
    (acquireDataset
        (CacheState.mk (some [⟨"Toronto, Ontario", "1", "$1,400", "", none, none, ""⟩]) 1000)
        (AcquireEnv.mk (some 1500) 1100
          [⟨"Toronto, Ontario", "1", "$1,600", "", none, none, ""⟩])).2.records =
      some [⟨"Toronto, Ontario", "1", "$1,600", "", none, none, ""⟩] :=
  c9_amended_invalidation _ _ 1500 rfl (by decide) (by decide)
